import Mathlib

/-!
Verification of `public/png-emojis/delete_emoji_files.py`.

The script reads hex codes from `hex_codes_to_delete.txt` via a regex scan,
matches them against `<code>.png` filenames in the script's directory,
asks for confirmation, deletes the matched files and writes a log.

The embedding below models the Python functions directly:
  * `read_hex_codes`      — `re.findall(r'(?:^|\s)([0-9A-F]{4,}(?:-[0-9A-F]{4,})*)',
                             content, re.MULTILINE | re.IGNORECASE)` followed by the
                             strip/comment filter loop;
  * `find_matching_files` — exact membership of directory entries in the set
                             `{code ++ ".png"}` (the directory listing is passed
                             explicitly, standing for `os.listdir(directory)`);
  * `delete_files`        — the per-file deletion loop with its try/except
                             (which removals raise is abstracted by a predicate
                             `fails`; `delete_files_exec` also records the paths
                             actually removed, i.e. the filesystem mutation);
  * `main`                — the whole run as a pure function from a `World`
                             (ambient state the script reads) to a `RunResult`
                             (exit code, files removed, log write).
Strings are processed as `List Char` where that is simpler; ASCII is assumed
for whitespace and case conversion, matching the script's data.
-/

namespace DeleteEmoji

/-- Python's `\s` on the ASCII range: the characters the regex treats as
whitespace (also the characters `str.strip` removes). -/
def pys_isspace (c : Char) : Bool :=
  c == ' ' || c == '\t' || c == '\n' || c == '\r' || c == '\x0b' || c == '\x0c'

/-- The character class `[0-9A-F]` under `re.IGNORECASE`. -/
def isHexDigitCI (c : Char) : Bool :=
  ('0' ≤ c && c ≤ '9') || ('A' ≤ c && c ≤ 'F') || ('a' ≤ c && c ≤ 'f')

/-- The greedy star `(?:-[0-9A-F]{4,})*` at the front of `l`: returns the
characters it consumes and the rest.  Each iteration needs a `-` followed by
4 or more hex digits (the digit run is consumed greedily; since `-` is not a
hex digit, greedy maximal runs are exact for this pattern). -/
def groupStar : List Char → List Char × List Char
  | '-' :: rest =>
    let run := rest.takeWhile isHexDigitCI
    if 4 ≤ run.length then
      let res := groupStar (rest.drop run.length)
      ('-' :: (run ++ res.1), res.2)
    else ([], '-' :: rest)
  | l => ([], l)
termination_by l => l.length
decreasing_by simp [List.length_drop]; omega

/-- The capture group `[0-9A-F]{4,}(?:-[0-9A-F]{4,})*` matched at the front of
`l`: `some (captured, rest)` on success, `none` when fewer than 4 hex digits
start `l`. -/
def groupMatch (l : List Char) : Option (List Char × List Char) :=
  let run := l.takeWhile isHexDigitCI
  if 4 ≤ run.length then
    let res := groupStar (l.drop run.length)
    some (run ++ res.1, res.2)
  else none

theorem groupStar_rest_length (l : List Char) : (groupStar l).2.length ≤ l.length := by
  induction l using groupStar.induct with
  | case1 rest run h ih =>
    simp only [run] at h ih
    rw [groupStar]
    simp only [h, if_true]
    have hd : (List.drop (List.takeWhile isHexDigitCI rest).length rest).length
        ≤ rest.length := by
      simp [List.length_drop]
    simp only [List.length_cons]
    omega
  | case2 rest run h =>
    simp only [run] at h
    rw [groupStar]
    simp [h]
  | case3 l h =>
    rw [groupStar.eq_def]
    split
    · exact absurd rfl (h _)
    · simp

theorem takeWhile_length_le {α : Type} (p : α → Bool) (l : List α) :
    (l.takeWhile p).length ≤ l.length := by
  induction l with
  | nil => simp
  | cons c rest ih =>
    rw [List.takeWhile_cons]
    split
    · simpa using ih
    · simp

theorem groupMatch_some_length {l : List Char} {gr : List Char × List Char}
    (h : groupMatch l = some gr) : gr.2.length < l.length := by
  simp only [groupMatch] at h
  split at h
  · rename_i hlen
    cases h
    have h1 := groupStar_rest_length (l.drop (l.takeWhile isHexDigitCI).length)
    have h2 : (l.takeWhile isHexDigitCI).length ≤ l.length :=
      takeWhile_length_le isHexDigitCI l
    simp only [List.length_drop] at h1
    simp only
    omega
  · exact absurd h (by simp)

/-- One attempt of the pattern `(?:^|\s)(...)` at the position holding `c`,
with `rest` after it: the engine first tries the `^` alternative (which is
viable only when the position is the start of the string or follows a
newline, i.e. `atStart`, under `re.MULTILINE`), then the `\s` alternative
(consume `c` as whitespace and match the group on `rest`).  Returns the
capture group and the remainder after the match. -/
def tryStart (atStart : Bool) (c : Char) (rest : List Char) :
    Option (List Char × List Char) :=
  match (if atStart then groupMatch (c :: rest) else none) with
  | some gr => some gr
  | none => if pys_isspace c then groupMatch rest else none

theorem tryStart_some_length {atStart : Bool} {c : Char} {rest : List Char}
    {gr : List Char × List Char} (h : tryStart atStart c rest = some gr) :
    gr.2.length < (c :: rest).length := by
  unfold tryStart at h
  split at h
  · rename_i gr' heq
    cases h
    split at heq
    · exact groupMatch_some_length heq
    · exact absurd heq (by simp)
  · split at h
    · exact Nat.lt_trans (groupMatch_some_length h) (by simp)
    · exact absurd h (by simp)

/-- The scan `re.findall` performs over the content: at each position try the
pattern (`tryStart`); on a match emit the capture group and resume at the
match end (the character before the resume point is a hex digit, so the
resume position is never a line start); otherwise advance one character,
noting whether the consumed character was a newline (where `^` matches under
`re.MULTILINE`). -/
def scanAll : Bool → List Char → List (List Char)
  | _, [] => []
  | atStart, c :: rest =>
    match h : tryStart atStart c rest with
    | some gr => gr.1 :: scanAll false gr.2
    | none => scanAll (c == '\n') rest
termination_by _ l => l.length
decreasing_by
  · exact tryStart_some_length h
  · simp

/-- Python `str.strip()` (ASCII whitespace), on character lists. -/
def pyStripL (l : List Char) : List Char :=
  ((l.dropWhile pys_isspace).reverse.dropWhile pys_isspace).reverse

/-- Python `str.startswith('#')`, on character lists. -/
def startsWithHash : List Char → Bool
  | '#' :: _ => true
  | _ => false

/-- `read_hex_codes`: regex-extract candidate codes from the file content,
then the cleaning loop — skip a code whose stripped form starts with `#` or
is empty, otherwise keep the stripped form. -/
def read_hex_codes (content : String) : List String :=
  (scanAll true content.toList).filterMap (fun code =>
    let s := pyStripL code
    if startsWithHash s || s.isEmpty then none else some (String.mk s))

/-- `os.path.join(a, b)` for a relative `b` and a directory `a` with no
trailing separator, which is how the script uses it. -/
def ospath_join (a b : String) : String := a ++ "/" ++ b

/-- `os.path.basename`: the part of the path after the last `/`. -/
def basename (p : String) : String :=
  String.mk ((p.toList.reverse.takeWhile (fun c => c != '/')).reverse)

/-- `find_matching_files(directory, hex_codes)`: the directory listing is the
explicit `listing` argument (`os.listdir(directory)`); an entry is kept
exactly when it equals `code ++ ".png"` for some candidate code, and the
kept entries are returned joined to the directory path. -/
def find_matching_files (directory : String) (listing : List String)
    (hex_codes : List String) : List String :=
  let patterns := hex_codes.map (fun code => code ++ ".png")
  (listing.filter (fun filename => patterns.contains filename)).map
    (fun filename => ospath_join directory filename)

/-- The loop body of `delete_files`: for each path, dry-run only prints;
otherwise `os.remove` is attempted — `fails p = true` models the `except`
branch (the exception is caught and the loop continues).  Returns the pair
(paths actually removed from the filesystem, the accumulated
`deleted_files` list of base names the Python function returns). -/
def delete_files_exec (fails : String → Bool) (dry_run : Bool) :
    List String → List String × List String
  | [] => ([], [])
  | f :: rest =>
    if dry_run then delete_files_exec fails dry_run rest
    else if fails f then delete_files_exec fails dry_run rest
    else
      let res := delete_files_exec fails dry_run rest
      (f :: res.1, basename f :: res.2)

/-- `delete_files(files, dry_run)`: the Python return value. -/
def delete_files (fails : String → Bool) (files : List String)
    (dry_run : Bool) : List String :=
  (delete_files_exec fails dry_run files).2

/-- Python `str.lower()` (ASCII range). -/
def pyLower (s : String) : String := String.mk (s.toList.map Char.toLower)

/-- The ambient state `main` reads: the script's directory, whether
`hex_codes_to_delete.txt` exists and its content, the directory listing,
the line read from standard input at the confirmation prompt, and which
`os.remove` calls raise. -/
structure World where
  directory : String
  hexFileExists : Bool
  hexFileContent : String
  dirListing : List String
  stdinLine : String
  removeFails : String → Bool

/-- The observable outcome of a run of `main`: the process exit code, the
full paths removed from the filesystem, and the log write (path and content,
written with mode `w`, i.e. replacing any previous file) if one happens. -/
structure RunResult where
  exitCode : Nat
  removed : List String
  logWrite : Option (String × String)
  deriving DecidableEq, Repr

/-- The content `main` writes to the log file, given the `deleted` list. -/
def log_content (deleted : List String) : String :=
  "Deleted " ++ toString deleted.length ++ " files:\n"
    ++ String.join (deleted.map (fun f => f ++ "\n"))

/-- `main()`: abort with exit code 1 when the codes file is missing;
otherwise read codes, find matches; on a non-empty match set prompt, and
only `confirm.lower() == 'yes'` runs the deletion and writes the log at
`deleted_files_log.txt` in the script's directory. -/
def main (w : World) : RunResult :=
  if !w.hexFileExists then
    { exitCode := 1, removed := [], logWrite := none }
  else
    let hex_codes := read_hex_codes w.hexFileContent
    let matching_files := find_matching_files w.directory w.dirListing hex_codes
    if matching_files.isEmpty then
      { exitCode := 0, removed := [], logWrite := none }
    else if pyLower w.stdinLine == "yes" then
      let res := delete_files_exec w.removeFails false matching_files
      { exitCode := 0, removed := res.1,
        logWrite := some (ospath_join w.directory "deleted_files_log.txt",
          log_content res.2) }
    else
      { exitCode := 0, removed := [], logWrite := none }

/-- Groups of characters joined by single hyphens: the first group followed
by `-group` for each further group.  Used to state the shape of the strings
the regex capture group produces. -/
def hyphenJoin : List (List Char) → List Char
  | [] => []
  | g :: gs => g ++ (gs.map (fun r => '-' :: r)).flatten

/-- The shape of a capture-group match: one or more hyphen-joined groups,
each of 4 or more hex digits. -/
def hexChainShape (g : List Char) : Prop :=
  ∃ gs : List (List Char), gs ≠ []
    ∧ (∀ x ∈ gs, 4 ≤ x.length ∧ x.all isHexDigitCI = true)
    ∧ g = hyphenJoin gs

/-- A concrete world for witnesses: one code in the file, one matching file
in the directory, operator declines. -/
def world_decline : World :=
  { directory := "d", hexFileExists := true, hexFileContent := "1F600\n",
    dirListing := ["1F600.png", "other.png"], stdinLine := "NO",
    removeFails := fun _ => false }

theorem hex_not_space {c : Char} (h : isHexDigitCI c = true) : pys_isspace c = false := by
  by_contra hs
  simp only [Bool.not_eq_false, pys_isspace, Bool.or_eq_true, beq_iff_eq] at hs
  rcases hs with ((((h1 | h1) | h1) | h1) | h1) | h1 <;> subst h1 <;>
    exact absurd h (by decide)

theorem hex_not_hash {c : Char} (h : isHexDigitCI c = true) : c ≠ '#' := by
  intro he
  subst he
  exact absurd h (by decide)

theorem dropWhile_eq_self {p : Char → Bool} {l : List Char}
    (h : ∀ c ∈ l, p c = false) : l.dropWhile p = l := by
  cases l with
  | nil => rfl
  | cons c t =>
    rw [List.dropWhile_cons]
    simp [h c (List.mem_cons_self c t)]

theorem pyStripL_eq_self {l : List Char}
    (h : ∀ c ∈ l, pys_isspace c = false) : pyStripL l = l := by
  unfold pyStripL
  rw [dropWhile_eq_self h]
  rw [dropWhile_eq_self (by intro c hc; exact h c (by simpa using hc))]
  exact List.reverse_reverse l

theorem startsWithHash_cons {c : Char} {t : List Char} (h : c ≠ '#') :
    startsWithHash (c :: t) = false := by
  rw [startsWithHash.eq_def]
  split
  · rename_i heq
    cases heq
    exact absurd rfl h
  · rfl

theorem filterMap_eq_map_of_forall {α β : Type} {L : List α} {f : α → Option β}
    {m : α → β} (h : ∀ g ∈ L, f g = some (m g)) : L.filterMap f = L.map m := by
  induction L with
  | nil => rfl
  | cons a t ih =>
    rw [List.filterMap_cons, h a (List.mem_cons_self a t), List.map_cons,
      ih (fun g hg => h g (List.mem_cons_of_mem a hg))]

theorem groupStar_fst_shape (l : List Char) :
    ∃ runs : List (List Char),
      (∀ x ∈ runs, 4 ≤ x.length ∧ x.all isHexDigitCI = true)
      ∧ (groupStar l).1 = (runs.map (fun r => '-' :: r)).flatten := by
  induction l using groupStar.induct with
  | case1 rest run h ih =>
    simp only [run] at h
    obtain ⟨runs, hruns, heq⟩ := ih
    refine ⟨rest.takeWhile isHexDigitCI :: runs, ?_, ?_⟩
    · intro x hx
      rcases List.mem_cons.mp hx with hx | hx
      · subst hx
        exact ⟨h, List.all_eq_true.mpr (fun c hc => List.mem_takeWhile_imp hc)⟩
      · exact hruns x hx
    · rw [groupStar]
      simp only [h, if_true, List.map_cons, List.flatten_cons]
      simp [heq]
  | case2 rest run h =>
    simp only [run] at h
    refine ⟨[], by simp, ?_⟩
    rw [groupStar]
    simp [h]
  | case3 l h =>
    refine ⟨[], by simp, ?_⟩
    rw [groupStar.eq_def]
    split
    · exact absurd rfl (h _)
    · simp

theorem groupMatch_shape {l : List Char} {gr : List Char × List Char}
    (h : groupMatch l = some gr) : hexChainShape gr.1 := by
  simp only [groupMatch] at h
  split at h
  · rename_i hlen
    cases h
    obtain ⟨runs, hruns, heq⟩ := groupStar_fst_shape (l.drop (l.takeWhile isHexDigitCI).length)
    refine ⟨l.takeWhile isHexDigitCI :: runs, by simp, ?_, ?_⟩
    · intro x hx
      rcases List.mem_cons.mp hx with hx | hx
      · subst hx
        exact ⟨hlen, List.all_eq_true.mpr (fun c hc => List.mem_takeWhile_imp hc)⟩
      · exact hruns x hx
    · simp only [hyphenJoin, heq]
  · exact absurd h (by simp)

theorem tryStart_shape {atStart : Bool} {c : Char} {rest : List Char}
    {gr : List Char × List Char} (h : tryStart atStart c rest = some gr) :
    hexChainShape gr.1 := by
  unfold tryStart at h
  split at h
  · rename_i gr' heq
    cases h
    split at heq
    · exact groupMatch_shape heq
    · exact absurd heq (by simp)
  · split at h
    · exact groupMatch_shape h
    · exact absurd h (by simp)

theorem scanAll_shape : ∀ (b : Bool) (l : List Char), ∀ g ∈ scanAll b l, hexChainShape g := by
  intro b l
  induction b, l using scanAll.induct with
  | case1 x =>
    intro g hg
    rw [scanAll] at hg
    exact absurd hg (by simp)
  | case2 atStart c rest gr h ih =>
    intro g hg
    rw [scanAll] at hg
    split at hg
    · rename_i gr' heq
      injection h.symm.trans heq with h3
      subst h3
      rcases List.mem_cons.mp hg with hg | hg
      · subst hg
        exact tryStart_shape h
      · exact ih g hg
    · rename_i heq
      exact Option.noConfusion (h.symm.trans heq)
  | case3 atStart c rest h ih =>
    intro g hg
    rw [scanAll] at hg
    split at hg
    · rename_i gr' heq
      exact Option.noConfusion (h.symm.trans heq)
    · exact ih g hg

theorem hexChainShape_props {g : List Char} (h : hexChainShape g) :
    (∃ c0 t, g = c0 :: t ∧ isHexDigitCI c0 = true)
    ∧ (∀ c ∈ g, isHexDigitCI c = true ∨ c = '-') := by
  obtain ⟨gs, hne, hall, rfl⟩ := h
  match gs, hne with
  | x :: rest, _ =>
    obtain ⟨hxlen, hxhex⟩ := hall x (List.mem_cons_self x rest)
    constructor
    · match x, hxlen with
      | c0 :: t, _ =>
        exact ⟨c0, t ++ (rest.map (fun r => '-' :: r)).flatten, by simp [hyphenJoin],
          List.all_eq_true.mp hxhex c0 (List.mem_cons_self c0 t)⟩
    · intro c hc
      simp only [hyphenJoin, List.mem_append] at hc
      rcases hc with hc | hc
      · exact Or.inl (List.all_eq_true.mp hxhex c hc)
      · rw [List.mem_flatten] at hc
        obtain ⟨sub, hsub, hcsub⟩ := hc
        rw [List.mem_map] at hsub
        obtain ⟨r, hr, rfl⟩ := hsub
        rcases List.mem_cons.mp hcsub with hc2 | hc2
        · exact Or.inr hc2
        · exact Or.inl (List.all_eq_true.mp (hall r (List.mem_cons_of_mem x hr)).2 c hc2)

theorem hexChainShape_clean {g : List Char} (h : hexChainShape g) :
    pyStripL g = g ∧ startsWithHash g = false ∧ g ≠ [] := by
  obtain ⟨⟨c0, t, rfl, hc0⟩, hmem⟩ := hexChainShape_props h
  refine ⟨?_, startsWithHash_cons (hex_not_hash hc0), by simp⟩
  apply pyStripL_eq_self
  intro c hc
  rcases hmem c hc with hhex | hd
  · exact hex_not_space hhex
  · subst hd
    rfl

theorem read_hex_codes_eq_scan (content : String) :
    read_hex_codes content = (scanAll true content.toList).map (fun g => String.mk g) := by
  unfold read_hex_codes
  apply filterMap_eq_map_of_forall
  intro g hg
  obtain ⟨hstrip, hhash, hne⟩ := hexChainShape_clean (scanAll_shape true content.toList g hg)
  have hemp : g.isEmpty = false := by
    cases g with
    | nil => exact absurd rfl hne
    | cons c t => rfl
  simp [hstrip, hhash, hemp]

theorem delete_files_exec_run (fails : String → Bool) (files : List String) :
    delete_files_exec fails false files
      = (files.filter (fun f => !fails f), (files.filter (fun f => !fails f)).map basename) := by
  induction files with
  | nil => rfl
  | cons f rest ih =>
    rw [delete_files_exec, List.filter_cons]
    by_cases hf : fails f
    · simp [hf, ih]
    · simp only [hf, Bool.not_false, if_true, if_false, Bool.false_eq_true, ih]
      simp

theorem delete_files_exec_dry (fails : String → Bool) (files : List String) :
    delete_files_exec fails true files = ([], []) := by
  induction files with
  | nil => rfl
  | cons f rest ih =>
    rw [delete_files_exec]
    simp [ih]

/-- C1: the spec says a hex token on a line beginning with `#` is discarded
by `read_hex_codes`, so `# ABCD1234` yields no candidate code.  The code does
the opposite: the regex capture group consists of hex digits only, so the
`code.strip().startswith('#')` check never fires and the token on the
comment line is kept.  This theorem evaluates the code at the failing
input. -/
theorem c1_comment_token_kept : read_hex_codes "# ABCD1234\n" = ["ABCD1234"] := by
  simp [read_hex_codes, scanAll, tryStart, groupMatch, groupStar, pys_isspace, isHexDigitCI,
    pyStripL, startsWithHash]

/-- C2: the spec's worked example expects matches `["1F600.png"]` for content
`1F600\n1F601-1F3FB\n# 1F602\n` and listing `1F600.png, 1F602.png, other.png`.
The code also extracts the commented `1F602` (see C1), so it matches
`1F602.png` as well.  This theorem evaluates the Reader-plus-Matcher pipeline
at the spec's example. -/
theorem c2_worked_example_actual :
    find_matching_files "d" ["1F600.png", "1F602.png", "other.png"]
      (read_hex_codes "1F600\n1F601-1F3FB\n# 1F602\n")
      = ["d/1F600.png", "d/1F602.png"] := by
  simp [read_hex_codes, scanAll, tryStart, groupMatch, groupStar, pys_isspace, isHexDigitCI,
    pyStripL, startsWithHash, find_matching_files, ospath_join]

/-- C3: `find_matching_files` returns exactly the directory entries equal, by
full-string equality, to `code ++ ".png"` for some candidate code; in
particular `ABCD1234.png` is matched by candidate `ABCD1234` but not by
`ABCD123` or `ABCD12345` — no substring, superstring, case-variant or
alternate-extension matches. -/
theorem c3_find_matching_files_exact (dir : String) (listing hex_codes : List String) :
    find_matching_files dir listing hex_codes
      = (listing.filter (fun f => decide (∃ code ∈ hex_codes, f = code ++ ".png"))).map
          (fun f => ospath_join dir f)
    ∧ find_matching_files dir ["ABCD1234.png"] ["ABCD1234"] = [ospath_join dir "ABCD1234.png"]
    ∧ find_matching_files dir ["ABCD1234.png"] ["ABCD123"] = []
    ∧ find_matching_files dir ["ABCD1234.png"] ["ABCD12345"] = []
    ∧ find_matching_files dir ["ABCD1234.png"] ["abcd1234"] = []
    ∧ find_matching_files dir ["ABCD1234.jpg"] ["ABCD1234"] = [] := by
  refine ⟨?_, ?_, ?_, ?_, ?_, ?_⟩
  · show List.map (fun filename => ospath_join dir filename)
        (List.filter
          (fun filename => (List.map (fun code => code ++ ".png") hex_codes).contains filename)
          listing) = _
    congr 1
    apply List.filter_congr
    intro f _
    simp [eq_comm]
  · simp [find_matching_files, ospath_join, List.contains]
  · simp [find_matching_files, ospath_join, List.contains]
  · simp [find_matching_files, ospath_join, List.contains]
  · simp [find_matching_files, ospath_join, List.contains]
  · simp [find_matching_files, ospath_join, List.contains]

/-- C4: on a run that reaches the confirmation prompt with a non-empty match
set, any operator input other than the case-insensitive string `yes` leaves
the run with exit code 0, no file removed and no log written; exactly the
case-insensitive `yes` proceeds with deletion of the matched files (those
whose removal does not fail). -/
theorem c4_confirmation_gate (w : World)
    (hfile : w.hexFileExists = true)
    (hmatch : find_matching_files w.directory w.dirListing
      (read_hex_codes w.hexFileContent) ≠ []) :
    (pyLower w.stdinLine ≠ "yes" →
      main w = { exitCode := 0, removed := [], logWrite := none })
    ∧ (pyLower w.stdinLine = "yes" →
      (main w).removed
        = (find_matching_files w.directory w.dirListing
            (read_hex_codes w.hexFileContent)).filter (fun f => !w.removeFails f)) := by
  have hempty : (find_matching_files w.directory w.dirListing
      (read_hex_codes w.hexFileContent)).isEmpty = false := by
    cases h : find_matching_files w.directory w.dirListing (read_hex_codes w.hexFileContent) with
    | nil => exact absurd h hmatch
    | cons a t => rfl
  constructor
  · intro hne
    have hb : (pyLower w.stdinLine == "yes") = false := by
      simp [hne]
    simp [main, hfile, hempty, hb]
  · intro heq
    have hb : (pyLower w.stdinLine == "yes") = true := by
      simp [heq]
    simp [main, hfile, hempty, hb, delete_files_exec_run]

/-- Witness for C4: in `world_decline` (one matched file, operator answers
`NO`) the run mutates nothing. -/
theorem c4_witness :
    main world_decline = { exitCode := 0, removed := [], logWrite := none } := by
  have h := c4_confirmation_gate world_decline rfl (by
    simp [world_decline, read_hex_codes, scanAll, tryStart, groupMatch, groupStar,
      pys_isspace, isHexDigitCI, pyStripL, startsWithHash, find_matching_files, ospath_join])
  exact h.1 (by decide)

/-- C5: `delete_files` with dry-run off attempts each deletion independently:
a failing file is skipped (its failure does not abort the remaining files)
and is excluded from the returned list, while every successfully deleted
file appears in the returned list by base name. -/
theorem c5_per_file_isolation (fails : String → Bool) (files : List String) :
    delete_files fails files false = (files.filter (fun f => !fails f)).map basename
    ∧ (delete_files_exec fails false files).1 = files.filter (fun f => !fails f)
    ∧ ∀ (f : String) (rest : List String), fails f = true →
        delete_files_exec fails false (f :: rest) = delete_files_exec fails false rest := by
  refine ⟨?_, ?_, ?_⟩
  · rw [delete_files, delete_files_exec_run]
  · rw [delete_files_exec_run]
  · intro f rest hf
    rw [delete_files_exec]
    simp [hf]

/-- C6: a missing codes file aborts the run before any other work with exit
code 1 (nothing removed, no log); whenever the file exists — including the
cancelled and no-matches paths — the process exits 0. -/
theorem c6_exit_codes (w : World) :
    (w.hexFileExists = false →
      main w = { exitCode := 1, removed := [], logWrite := none })
    ∧ (w.hexFileExists = true → (main w).exitCode = 0) := by
  constructor
  · intro h
    simp [main, h]
  · intro h
    unfold main
    rw [h]
    simp only [Bool.not_true, Bool.false_eq_true, if_false]
    split
    · rfl
    · split
      · rfl
      · rfl

/-- C7: with an empty candidate list `find_matching_files` returns the empty
list; and whenever the matched-file set is empty, `main` removes nothing and
writes no log. -/
theorem c7_empty_matches_no_mutation (dir : String) (listing : List String) (w : World) :
    find_matching_files dir listing [] = []
    ∧ (find_matching_files w.directory w.dirListing (read_hex_codes w.hexFileContent) = [] →
        (main w).removed = [] ∧ (main w).logWrite = none) := by
  constructor
  · simp [find_matching_files]
  · intro h
    by_cases hf : w.hexFileExists = true
    · simp [main, hf, h]
    · simp only [Bool.not_eq_true] at hf
      simp [main, hf]

/-- C8: the log is written exactly after a non-empty, confirmed deletion, at
the fixed path `deleted_files_log.txt` in the script's directory (mode `w`,
replacing any prior file), with content `Deleted <N> files:` followed by one
base filename per line, where N and the names are the files actually deleted
(failed deletions excluded). -/
theorem c8_log_format (w : World) :
    ((main w).logWrite ≠ none ↔
      (w.hexFileExists = true
        ∧ find_matching_files w.directory w.dirListing (read_hex_codes w.hexFileContent) ≠ []
        ∧ pyLower w.stdinLine = "yes"))
    ∧ (w.hexFileExists = true →
       find_matching_files w.directory w.dirListing (read_hex_codes w.hexFileContent) ≠ [] →
       pyLower w.stdinLine = "yes" →
        (main w).logWrite = some (ospath_join w.directory "deleted_files_log.txt",
          "Deleted "
            ++ toString (((find_matching_files w.directory w.dirListing
                  (read_hex_codes w.hexFileContent)).filter
                    (fun f => !w.removeFails f)).map basename).length
            ++ " files:\n"
            ++ String.join ((((find_matching_files w.directory w.dirListing
                  (read_hex_codes w.hexFileContent)).filter
                    (fun f => !w.removeFails f)).map basename).map (fun f => f ++ "\n")))) := by
  by_cases hf : w.hexFileExists = true
  · by_cases hm : find_matching_files w.directory w.dirListing
        (read_hex_codes w.hexFileContent) = []
    · constructor
      · simp [main, hf, hm]
      · intro _ hm2
        exact absurd hm hm2
    · have hempty : (find_matching_files w.directory w.dirListing
          (read_hex_codes w.hexFileContent)).isEmpty = false := by
        cases h : find_matching_files w.directory w.dirListing
            (read_hex_codes w.hexFileContent) with
        | nil => exact absurd h hm
        | cons a t => rfl
      by_cases hy : pyLower w.stdinLine = "yes"
      · have hb : (pyLower w.stdinLine == "yes") = true := by simp [hy]
        constructor
        · simp [main, hf, hempty, hb, hm, hy]
        · intro _ _ _
          simp [main, hf, hempty, hb, delete_files_exec_run, log_content]
      · have hb : (pyLower w.stdinLine == "yes") = false := by simp [hy]
        constructor
        · simp [main, hf, hempty, hb, hy]
        · intro _ _ hy2
          exact absurd hy2 hy
  · simp only [Bool.not_eq_true] at hf
    constructor
    · simp [main, hf]
    · intro hf2
      rw [hf] at hf2
      exact absurd hf2 (by simp)

/-- C9: `delete_files` with the dry-run flag performs no filesystem mutation
(no path is removed) and, since nothing is deleted, returns the empty
list. -/
theorem c9_dry_run_no_mutation (fails : String → Bool) (files : List String) :
    delete_files_exec fails true files = ([], [])
    ∧ delete_files fails files true = [] := by
  refine ⟨delete_files_exec_dry fails files, ?_⟩
  rw [delete_files, delete_files_exec_dry]

/-- C10: every string `read_hex_codes` returns is non-empty and consists of
hyphen-joined groups of 4 or more hex digits (case-insensitive); the
comment-marker and emptiness checks never discard a regex match, so the
returned list equals, in order, the full list of regex matches found in the
content. -/
theorem c10_reader_invariant (content : String) :
    read_hex_codes content = (scanAll true content.toList).map (fun g => String.mk g)
    ∧ ∀ s ∈ read_hex_codes content, s ≠ ""
        ∧ ∃ gs : List (List Char), gs ≠ []
            ∧ (∀ x ∈ gs, 4 ≤ x.length ∧ x.all isHexDigitCI = true)
            ∧ s = String.mk (hyphenJoin gs) := by
  refine ⟨read_hex_codes_eq_scan content, ?_⟩
  intro s hs
  rw [read_hex_codes_eq_scan content, List.mem_map] at hs
  obtain ⟨g, hg, rfl⟩ := hs
  obtain ⟨gs, hne, hall, rfl⟩ := scanAll_shape true content.toList g hg
  refine ⟨?_, gs, hne, hall, rfl⟩
  have hjne : hyphenJoin gs ≠ [] := (hexChainShape_clean ⟨gs, hne, hall, rfl⟩).2.2
  intro he
  apply hjne
  have : (String.mk (hyphenJoin gs)).data = ("" : String).data := by rw [he]
  simpa using this

end DeleteEmoji
